import Mathlib

/-!
Verification of the trade lifecycle engine of `agent-commerce`
(`src/escrow.ts`, class `EscrowManager`), as a shallow embedding.

The persisted trades file is modelled by `StoreFile`; reading a missing,
unreadable or syntactically invalid file yields the empty trade list, as
in `loadTrades`.  The external ledger (ethers contract calls plus their
confirmation waits) is modelled by an oracle `LedgerCall → LedgerOutcome`;
the trade id and timestamp generators are passed in as explicit inputs.
Each lifecycle operation returns its result, the list of ledger
transactions it submitted, and the store file after the call.
-/

set_option autoImplicit false

namespace AgentCommerce

/-- The `TradeState` union type of `src/escrow.ts`. -/
inductive TradeState where
  | pending
  | locked
  | delivered
  | released
  | refunded
  | disputed
deriving DecidableEq, Repr

/-- The optional transaction-hash record `Trade.txHashes`. -/
structure TxHashes where
  escrowCreate : Option String
  release : Option String
  refund : Option String
deriving DecidableEq, Repr

/-- The JS object literal with no keys present. -/
def TxHashes.empty : TxHashes := ⟨none, none, none⟩

/-- The `Trade` interface of `src/escrow.ts`. -/
structure Trade where
  id : String
  tradeHash : String
  listingId : String
  buyerAgentId : String
  sellerAgentId : String
  buyerAddress : String
  sellerAddress : String
  amount : String
  state : TradeState
  txHashes : TxHashes
  createdAt : String
  updatedAt : String
deriving DecidableEq, Repr

/-- The on-disk `trades.json` file.  `valid` holds a parseable trade list;
the other constructors are a missing file, a file `readFileSync` fails on,
and a file whose contents `JSON.parse` rejects. -/
inductive StoreFile where
  | absent
  | unreadable
  | invalidJson
  | valid (trades : List Trade)
deriving DecidableEq, Repr

/-- `EscrowManager.loadTrades`: a missing file returns the empty list and the
`catch` block turns every read or parse failure into the empty list as well. -/
def loadTrades : StoreFile → List Trade
  | .valid ts => ts
  | _ => []

/-- `EscrowManager.saveTrades`: `writeFileSync` of the serialized list. -/
def saveTrades (ts : List Trade) : StoreFile := .valid ts

/-- A transaction submitted to the ClawToken contract by the escrow manager. -/
inductive LedgerCall where
  | approve (spender amount : String)
  | createEscrow (seller amount tradeHash : String)
  | releaseEscrow (tradeHash : String)
  | refundEscrow (tradeHash : String)
deriving DecidableEq, Repr

/-- Outcome of submitting one ledger transaction and awaiting its receipt:
either a confirmed receipt hash, or any thrown failure (rejection,
unavailability, wait error). -/
inductive LedgerOutcome where
  | confirmed (txHash : String)
  | failed
deriving DecidableEq, Repr

/-- The failures the escrow manager surfaces by throwing. -/
inductive EscrowError where
  | notFound (tradeId : String)
  | invalidState (s : TradeState)
  | ledgerFailure (call : LedgerCall)
deriving DecidableEq, Repr

/-- The partial patch `updateTrade` is invoked with.  Every call site in
`src/escrow.ts` passes only a `state` field and, for the on-chain
operations, a full `txHashes` object. -/
structure TradePatch where
  state : Option TradeState
  txHashes : Option TxHashes
deriving DecidableEq, Repr

/-- JS object spread of a patch object over the current `txHashes`: a slot
whose key is present in the patch wins, an absent slot keeps the current
value. -/
def mergeTx (cur patch : TxHashes) : TxHashes :=
  ⟨patch.escrowCreate.orElse (fun _ => cur.escrowCreate),
   patch.release.orElse (fun _ => cur.release),
   patch.refund.orElse (fun _ => cur.refund)⟩

/-- The record update inside `updateTrade`: spread the patch over the stored
trade, merge `txHashes`, and stamp `updatedAt` with the current time. -/
def applyPatch (patch : TradePatch) (now : String) (t : Trade) : Trade :=
  { t with
    state := patch.state.getD t.state
    txHashes := mergeTx t.txHashes (patch.txHashes.getD TxHashes.empty)
    updatedAt := now }

/-- `findIndex` on trade id followed by replacement at that index: replaces
the first trade with the given id, returning the new list and the updated
trade, or `none` when no trade matches. -/
def updateFirst (tradeId : String) (f : Trade → Trade) :
    List Trade → Option (List Trade × Trade)
  | [] => none
  | t :: ts =>
    if t.id = tradeId then some (f t :: ts, f t)
    else
      match updateFirst tradeId f ts with
      | none => none
      | some (ts', u) => some (t :: ts', u)

/-- `EscrowManager.updateTrade`: load, locate by id, patch, save. -/
def updateTrade (tradeId : String) (patch : TradePatch) (now : String)
    (file : StoreFile) : Except EscrowError (Trade × StoreFile) :=
  match updateFirst tradeId (applyPatch patch now) (loadTrades file) with
  | none => .error (.notFound tradeId)
  | some (ts, t) => .ok (t, saveTrades ts)

/-- The string fed to `keccak256` in `initiateTrade`: the trade id, the two
party addresses and the creation timestamp joined by `:` separators. -/
def tradeHashInput (tradeId buyerAddress sellerAddress now : String) : String :=
  tradeId ++ ":" ++ buyerAddress ++ ":" ++ sellerAddress ++ ":" ++ now

/-- The deterministic on-chain trade id: `keccak256` of the joined string.
The hash itself is an external primitive and is passed in as a function. -/
def tradeHashOf (keccak256 : String → String)
    (tradeId buyerAddress sellerAddress now : String) : String :=
  keccak256 (tradeHashInput tradeId buyerAddress sellerAddress now)

/-- The `params` argument of `initiateTrade`. -/
structure InitiateParams where
  listingId : String
  buyerAgentId : String
  sellerAgentId : String
  buyerAddress : String
  sellerAddress : String
  amount : String
deriving DecidableEq, Repr

/-- `EscrowManager.initiateTrade`.  The generated `tradeId` and the `now`
timestamp are explicit inputs (the source draws them from `Date` and
`Math.random`).  The function performs no validation of its parameters:
it always appends a fresh `pending` record and returns it. -/
def initiateTrade (keccak256 : String → String) (tradeId now : String)
    (params : InitiateParams) (file : StoreFile) : Trade × StoreFile :=
  let trades := loadTrades file
  let trade : Trade :=
    { id := tradeId
      tradeHash := tradeHashOf keccak256 tradeId params.buyerAddress params.sellerAddress now
      listingId := params.listingId
      buyerAgentId := params.buyerAgentId
      sellerAgentId := params.sellerAgentId
      buyerAddress := params.buyerAddress
      sellerAddress := params.sellerAddress
      amount := params.amount
      state := .pending
      txHashes := TxHashes.empty
      createdAt := now
      updatedAt := now }
  (trade, saveTrades (trades ++ [trade]))

/-- `EscrowManager.getTrade`: first trade whose `id` matches, else `null`. -/
def getTrade (tradeId : String) (file : StoreFile) : Option Trade :=
  (loadTrades file).find? (fun t => t.id == tradeId)

/-- `EscrowManager.getTradesByAgent`. -/
def getTradesByAgent (agentId : String) (file : StoreFile) : List Trade :=
  (loadTrades file).filter
    (fun t => t.buyerAgentId == agentId || t.sellerAgentId == agentId)

/-- `EscrowManager.getActiveTrades`. -/
def getActiveTrades (file : StoreFile) : List Trade :=
  (loadTrades file).filter
    (fun t => t.state == .pending || t.state == .locked || t.state == .delivered)

deriving instance DecidableEq for Except

/-- Result of one lifecycle operation: the returned trade or thrown error,
the ledger transactions submitted during the call in order, and the store
file after the call. -/
structure OpResult where
  result : Except EscrowError Trade
  ledgerCalls : List LedgerCall
  file : StoreFile
deriving DecidableEq, Repr

/-- The read-and-submit phase of `lockTokens`: everything before the final
`updateTrade` — load the trade, check the `pending` guard, submit and await
the `approve` and `createEscrow` transactions.  This phase only reads the
store file. -/
def lockSubmit (contractAddress : String) (ledger : LedgerCall → LedgerOutcome)
    (tradeId : String) (file : StoreFile) :
    Except EscrowError (Trade × String) × List LedgerCall :=
  match getTrade tradeId file with
  | none => (.error (.notFound tradeId), [])
  | some trade =>
    if trade.state == .pending then
      let approveCall := LedgerCall.approve contractAddress trade.amount
      match ledger approveCall with
      | .failed => (.error (.ledgerFailure approveCall), [approveCall])
      | .confirmed _ =>
        let createCall :=
          LedgerCall.createEscrow trade.sellerAddress trade.amount trade.tradeHash
        match ledger createCall with
        | .failed => (.error (.ledgerFailure createCall), [approveCall, createCall])
        | .confirmed receiptHash => (.ok (trade, receiptHash), [approveCall, createCall])
    else (.error (.invalidState trade.state), [])

/-- The commit phase of `lockTokens`: the final `updateTrade` writing state
`locked` and the escrow-creation receipt hash in one store write. -/
def lockCommit (now tradeId : String) (trade : Trade) (receiptHash : String)
    (file : StoreFile) : Except EscrowError (Trade × StoreFile) :=
  updateTrade tradeId
    ⟨some .locked, some { trade.txHashes with escrowCreate := some receiptHash }⟩
    now file

/-- Resume one `lockTokens` task from the output of its submit phase,
running its commit phase against the store as it stands when the task
resumes after its last `await`. -/
def lockResume (now tradeId : String)
    (sub : Except EscrowError (Trade × String) × List LedgerCall)
    (file : StoreFile) : OpResult :=
  match sub with
  | (.error e, calls) => ⟨.error e, calls, file⟩
  | (.ok (trade, receiptHash), calls) =>
    match lockCommit now tradeId trade receiptHash file with
    | .error e => ⟨.error e, calls, file⟩
    | .ok (t, file') => ⟨.ok t, calls, file'⟩

/-- `EscrowManager.lockTokens`, as its submit phase followed by its commit
phase against the same store (the sequential, uninterleaved execution). -/
def lockTokens (contractAddress : String) (ledger : LedgerCall → LedgerOutcome)
    (now tradeId : String) (file : StoreFile) : OpResult :=
  lockResume now tradeId (lockSubmit contractAddress ledger tradeId file) file

/-- Two concurrent `lockTokens` calls on the same trade id, under the
schedule in which both tasks finish their read-and-submit phase against the
initial store — both are suspended at their final `await` before either has
written — and then task A commits followed by task B.  Returns both task
results; task B's commit runs against the store task A left behind. -/
def lockTokensInterleaved (contractAddress : String)
    (ledger : LedgerCall → LedgerOutcome) (nowA nowB tradeId : String)
    (f0 : StoreFile) : OpResult × OpResult :=
  let subA := lockSubmit contractAddress ledger tradeId f0
  let subB := lockSubmit contractAddress ledger tradeId f0
  let rA := lockResume nowA tradeId subA f0
  let rB := lockResume nowB tradeId subB rA.file
  (rA, rB)

/-- `EscrowManager.markDelivered`: purely local `locked → delivered`. -/
def markDelivered (now tradeId : String) (file : StoreFile) : OpResult :=
  match getTrade tradeId file with
  | none => ⟨.error (.notFound tradeId), [], file⟩
  | some trade =>
    if trade.state == .locked then
      match updateTrade tradeId ⟨some .delivered, none⟩ now file with
      | .error e => ⟨.error e, [], file⟩
      | .ok (t, file') => ⟨.ok t, [], file'⟩
    else ⟨.error (.invalidState trade.state), [], file⟩

/-- `EscrowManager.releaseTokens`. -/
def releaseTokens (ledger : LedgerCall → LedgerOutcome)
    (now tradeId : String) (file : StoreFile) : OpResult :=
  match getTrade tradeId file with
  | none => ⟨.error (.notFound tradeId), [], file⟩
  | some trade =>
    if trade.state == .locked || trade.state == .delivered then
      let call := LedgerCall.releaseEscrow trade.tradeHash
      match ledger call with
      | .failed => ⟨.error (.ledgerFailure call), [call], file⟩
      | .confirmed receiptHash =>
        match
          updateTrade tradeId
            ⟨some .released, some { trade.txHashes with release := some receiptHash }⟩
            now file
        with
        | .error e => ⟨.error e, [call], file⟩
        | .ok (t, file') => ⟨.ok t, [call], file'⟩
    else ⟨.error (.invalidState trade.state), [], file⟩

/-- `EscrowManager.refundTokens`. -/
def refundTokens (ledger : LedgerCall → LedgerOutcome)
    (now tradeId : String) (file : StoreFile) : OpResult :=
  match getTrade tradeId file with
  | none => ⟨.error (.notFound tradeId), [], file⟩
  | some trade =>
    if trade.state == .locked then
      let call := LedgerCall.refundEscrow trade.tradeHash
      match ledger call with
      | .failed => ⟨.error (.ledgerFailure call), [call], file⟩
      | .confirmed receiptHash =>
        match
          updateTrade tradeId
            ⟨some .refunded, some { trade.txHashes with refund := some receiptHash }⟩
            now file
        with
        | .error e => ⟨.error e, [call], file⟩
        | .ok (t, file') => ⟨.ok t, [call], file'⟩
    else ⟨.error (.invalidState trade.state), [], file⟩

/-- The four lifecycle mutations past `initiate`. -/
inductive LifecycleOp where
  | lock
  | deliver
  | release
  | refund
deriving DecidableEq, Repr

/-- Dispatch a lifecycle operation to its implementation. -/
def applyOp (contractAddress : String) (ledger : LedgerCall → LedgerOutcome)
    (now tradeId : String) (file : StoreFile) : LifecycleOp → OpResult
  | .lock => lockTokens contractAddress ledger now tradeId file
  | .deliver => markDelivered now tradeId file
  | .release => releaseTokens ledger now tradeId file
  | .refund => refundTokens ledger now tradeId file

/-- The source states each operation's guard accepts. -/
def legalSource : LifecycleOp → TradeState → Bool
  | .lock, .pending => true
  | .deliver, .locked => true
  | .release, .locked => true
  | .release, .delivered => true
  | .refund, .locked => true
  | _, _ => false

/-- The state each operation writes on success. -/
def opTarget : LifecycleOp → TradeState
  | .lock => .locked
  | .deliver => .delivered
  | .release => .released
  | .refund => .refunded

/-- The legal transition edges of the lifecycle state machine. -/
def edgeAllowed : TradeState → TradeState → Bool
  | .pending, .locked => true
  | .locked, .delivered => true
  | .locked, .released => true
  | .delivered, .released => true
  | .locked, .refunded => true
  | _, _ => false

/-! ### Helper lemmas on the store primitives -/

theorem orElse_self {α : Type} (x : Option α) : x.orElse (fun _ => x) = x := by
  cases x <;> rfl

theorem mergeTx_empty (cur : TxHashes) : mergeTx cur TxHashes.empty = cur := by
  cases cur
  simp [mergeTx, TxHashes.empty, Option.orElse]

@[simp] theorem applyPatch_proj_id (patch : TradePatch) (now : String) (t : Trade) :
    (applyPatch patch now t).id = t.id := rfl

@[simp] theorem applyPatch_proj_tradeHash (patch : TradePatch) (now : String) (t : Trade) :
    (applyPatch patch now t).tradeHash = t.tradeHash := rfl

@[simp] theorem applyPatch_proj_listingId (patch : TradePatch) (now : String) (t : Trade) :
    (applyPatch patch now t).listingId = t.listingId := rfl

@[simp] theorem applyPatch_proj_buyerAgentId (patch : TradePatch) (now : String) (t : Trade) :
    (applyPatch patch now t).buyerAgentId = t.buyerAgentId := rfl

@[simp] theorem applyPatch_proj_sellerAgentId (patch : TradePatch) (now : String) (t : Trade) :
    (applyPatch patch now t).sellerAgentId = t.sellerAgentId := rfl

@[simp] theorem applyPatch_proj_buyerAddress (patch : TradePatch) (now : String) (t : Trade) :
    (applyPatch patch now t).buyerAddress = t.buyerAddress := rfl

@[simp] theorem applyPatch_proj_sellerAddress (patch : TradePatch) (now : String) (t : Trade) :
    (applyPatch patch now t).sellerAddress = t.sellerAddress := rfl

@[simp] theorem applyPatch_proj_amount (patch : TradePatch) (now : String) (t : Trade) :
    (applyPatch patch now t).amount = t.amount := rfl

@[simp] theorem applyPatch_proj_createdAt (patch : TradePatch) (now : String) (t : Trade) :
    (applyPatch patch now t).createdAt = t.createdAt := rfl

@[simp] theorem applyPatch_proj_updatedAt (patch : TradePatch) (now : String) (t : Trade) :
    (applyPatch patch now t).updatedAt = now := rfl

@[simp] theorem applyPatch_proj_state (patch : TradePatch) (now : String) (t : Trade) :
    (applyPatch patch now t).state = patch.state.getD t.state := rfl

@[simp] theorem applyPatch_proj_txHashes (patch : TradePatch) (now : String) (t : Trade) :
    (applyPatch patch now t).txHashes = mergeTx t.txHashes (patch.txHashes.getD TxHashes.empty) := rfl

theorem find?_append_first (p : Trade → Bool) (pre post : List Trade) (t : Trade)
    (hpre : ∀ x ∈ pre, p x = false) (ht : p t = true) :
    (pre ++ t :: post).find? p = some t := by
  induction pre with
  | nil => simp [List.find?_cons, ht]
  | cons a as ih =>
    have ha := hpre a (List.mem_cons_self a as)
    simp only [List.cons_append, List.find?_cons, ha, cond_false]
    exact ih (fun x hx => hpre x (List.mem_cons_of_mem a hx))

theorem find?_id_some (tradeId : String) (ts : List Trade) (t : Trade)
    (h : ts.find? (fun x => x.id == tradeId) = some t) :
    ∃ pre post, ts = pre ++ t :: post ∧ (∀ x ∈ pre, x.id ≠ tradeId) ∧ t.id = tradeId := by
  induction ts with
  | nil => simp at h
  | cons a as ih =>
    by_cases ha : a.id = tradeId
    · have hb : (a.id == tradeId) = true := beq_iff_eq.mpr ha
      rw [List.find?_cons, hb] at h
      have h' : some a = some t := h
      obtain rfl : a = t := by injection h'
      exact ⟨[], as, by simp, by simp, ha⟩
    · have hb : (a.id == tradeId) = false := beq_eq_false_iff_ne.mpr ha
      rw [List.find?_cons, hb] at h
      have h' : as.find? (fun x => x.id == tradeId) = some t := h
      obtain ⟨pre, post, h1, h2, h3⟩ := ih h'
      refine ⟨a :: pre, post, by simp [h1], ?_, h3⟩
      intro x hx
      rcases List.mem_cons.mp hx with rfl | hx
      · exact ha
      · exact h2 x hx

theorem getTrade_some_decomp (tradeId : String) (file : StoreFile) (t : Trade)
    (h : getTrade tradeId file = some t) :
    ∃ pre post, loadTrades file = pre ++ t :: post ∧
      (∀ x ∈ pre, x.id ≠ tradeId) ∧ t.id = tradeId :=
  find?_id_some tradeId (loadTrades file) t h

theorem getTrade_of_decomp (tradeId : String) (file : StoreFile) (t : Trade)
    (pre post : List Trade) (hdec : loadTrades file = pre ++ t :: post)
    (hpre : ∀ x ∈ pre, x.id ≠ tradeId) (hid : t.id = tradeId) :
    getTrade tradeId file = some t := by
  unfold getTrade
  rw [hdec]
  exact find?_append_first _ pre post t
    (fun x hx => beq_eq_false_iff_ne.mpr (hpre x hx)) (beq_iff_eq.mpr hid)

theorem updateFirst_append (tradeId : String) (f : Trade → Trade)
    (pre post : List Trade) (t : Trade)
    (hpre : ∀ x ∈ pre, x.id ≠ tradeId) (ht : t.id = tradeId) :
    updateFirst tradeId f (pre ++ t :: post) = some (pre ++ f t :: post, f t) := by
  induction pre with
  | nil => simp [updateFirst, ht]
  | cons a as ih =>
    have ha : a.id ≠ tradeId := hpre a (List.mem_cons_self a as)
    simp only [List.cons_append, updateFirst, if_neg ha]
    rw [List.append_eq, ih (fun x hx => hpre x (List.mem_cons_of_mem a hx))]

theorem updateTrade_eq (tradeId : String) (patch : TradePatch) (now : String)
    (file : StoreFile) (t : Trade) (pre post : List Trade)
    (hdec : loadTrades file = pre ++ t :: post)
    (hpre : ∀ x ∈ pre, x.id ≠ tradeId) (hid : t.id = tradeId) :
    updateTrade tradeId patch now file =
      .ok (applyPatch patch now t, .valid (pre ++ applyPatch patch now t :: post)) := by
  unfold updateTrade
  rw [hdec, updateFirst_append tradeId _ pre post t hpre hid]
  rfl

theorem updateFirst_some (tradeId : String) (f : Trade → Trade) (ts ts' : List Trade)
    (u : Trade) (h : updateFirst tradeId f ts = some (ts', u)) :
    ∃ pre t post, ts = pre ++ t :: post ∧ (∀ x ∈ pre, x.id ≠ tradeId) ∧
      t.id = tradeId ∧ ts' = pre ++ f t :: post ∧ u = f t := by
  induction ts generalizing ts' u with
  | nil => simp [updateFirst] at h
  | cons a as ih =>
    by_cases ha : a.id = tradeId
    · rw [updateFirst, if_pos ha] at h
      have h' : f a :: as = ts' ∧ f a = u := by
        have := Option.some.inj h
        exact ⟨congrArg Prod.fst this, congrArg Prod.snd this⟩
      exact ⟨[], a, as, by simp, by simp, ha, by simp [h'.1.symm], h'.2.symm⟩
    · rw [updateFirst, if_neg ha] at h
      rcases hrec : updateFirst tradeId f as with _ | ⟨bs, v⟩
      · rw [hrec] at h; simp at h
      · rw [hrec] at h
        have h' : a :: bs = ts' ∧ v = u := by
          have := Option.some.inj h
          exact ⟨congrArg Prod.fst this, congrArg Prod.snd this⟩
        obtain ⟨pre, t, post, h1, h2, h3, h4, h5⟩ := ih bs v hrec
        refine ⟨a :: pre, t, post, by simp [h1], ?_, h3, ?_, h'.2 ▸ h5⟩
        · intro x hx
          rcases List.mem_cons.mp hx with rfl | hx
          · exact ha
          · exact h2 x hx
        · rw [← h'.1, h4]; simp

theorem updateTrade_ok_inv (tradeId : String) (patch : TradePatch) (now : String)
    (file : StoreFile) (t' : Trade) (file' : StoreFile)
    (h : updateTrade tradeId patch now file = .ok (t', file')) :
    ∃ pre t post, loadTrades file = pre ++ t :: post ∧ (∀ x ∈ pre, x.id ≠ tradeId) ∧
      t.id = tradeId ∧ t' = applyPatch patch now t ∧
      file' = .valid (pre ++ applyPatch patch now t :: post) := by
  unfold updateTrade at h
  rcases hu : updateFirst tradeId (applyPatch patch now) (loadTrades file) with _ | ⟨ts', u⟩
  · rw [hu] at h; simp at h
  · rw [hu] at h
    have h' : u = t' ∧ saveTrades ts' = file' := by
      have := Except.ok.inj h
      exact ⟨congrArg Prod.fst this, congrArg Prod.snd this⟩
    obtain ⟨pre, t, post, h1, h2, h3, h4, h5⟩ :=
      updateFirst_some tradeId (applyPatch patch now) (loadTrades file) ts' u hu
    exact ⟨pre, t, post, h1, h2, h3, by rw [← h'.1, h5],
      by rw [← h'.2, h4]; rfl⟩

/-! ### Per-operation lemmas -/

/-- The txHashes patch each operation passes to `updateTrade` on success:
a spread of the trade's current txHashes with the new receipt hash in the
slot the operation writes (no patch at all for `markDelivered`). -/
def patchTx : LifecycleOp → Trade → String → Option TxHashes
  | .lock, t, h => some { t.txHashes with escrowCreate := some h }
  | .deliver, _, _ => none
  | .release, t, h => some { t.txHashes with release := some h }
  | .refund, t, h => some { t.txHashes with refund := some h }

theorem lockTokens_notFound (contractAddress : String)
    (ledger : LedgerCall → LedgerOutcome) (now tradeId : String) (file : StoreFile)
    (hget : getTrade tradeId file = none) :
    lockTokens contractAddress ledger now tradeId file =
      ⟨.error (.notFound tradeId), [], file⟩ := by
  unfold lockTokens lockResume lockSubmit
  rw [hget]

theorem lockTokens_not_pending (contractAddress : String)
    (ledger : LedgerCall → LedgerOutcome) (now tradeId : String) (file : StoreFile)
    (t : Trade) (hget : getTrade tradeId file = some t) (hst : t.state ≠ .pending) :
    lockTokens contractAddress ledger now tradeId file =
      ⟨.error (.invalidState t.state), [], file⟩ := by
  have hb : (t.state == .pending) = false := beq_eq_false_iff_ne.mpr hst
  unfold lockTokens lockResume lockSubmit
  rw [hget]
  simp [hb]

theorem lockTokens_eq_ok (contractAddress : String)
    (ledger : LedgerCall → LedgerOutcome) (now tradeId : String) (file : StoreFile)
    (t : Trade) (pre post : List Trade) (appHash receiptHash : String)
    (hdec : loadTrades file = pre ++ t :: post)
    (hpre : ∀ x ∈ pre, x.id ≠ tradeId) (hid : t.id = tradeId)
    (hst : t.state = .pending)
    (happ : ledger (.approve contractAddress t.amount) = .confirmed appHash)
    (hcre : ledger (.createEscrow t.sellerAddress t.amount t.tradeHash) =
      .confirmed receiptHash) :
    lockTokens contractAddress ledger now tradeId file =
      ⟨.ok (applyPatch ⟨some .locked, patchTx .lock t receiptHash⟩ now t),
       [.approve contractAddress t.amount,
        .createEscrow t.sellerAddress t.amount t.tradeHash],
       .valid (pre ++ applyPatch ⟨some .locked, patchTx .lock t receiptHash⟩ now t :: post)⟩ := by
  have hget := getTrade_of_decomp tradeId file t pre post hdec hpre hid
  have hupd := updateTrade_eq tradeId
    ⟨some .locked, some { t.txHashes with escrowCreate := some receiptHash }⟩
    now file t pre post hdec hpre hid
  have hsub : lockSubmit contractAddress ledger tradeId file =
      (.ok (t, receiptHash),
       [.approve contractAddress t.amount,
        .createEscrow t.sellerAddress t.amount t.tradeHash]) := by
    unfold lockSubmit
    simp only [hget, hst, happ, hcre]
    rfl
  unfold lockTokens lockResume lockCommit
  simp only [patchTx, hsub, hupd]

theorem lockTokens_ok_inv (contractAddress : String)
    (ledger : LedgerCall → LedgerOutcome) (now tradeId : String) (file : StoreFile)
    (t' : Trade) (calls : List LedgerCall) (file' : StoreFile)
    (h : lockTokens contractAddress ledger now tradeId file = ⟨.ok t', calls, file'⟩) :
    ∃ t pre post receiptHash,
      loadTrades file = pre ++ t :: post ∧ (∀ x ∈ pre, x.id ≠ tradeId) ∧
      t.id = tradeId ∧ t.state = .pending ∧
      calls = [.approve contractAddress t.amount,
               .createEscrow t.sellerAddress t.amount t.tradeHash] ∧
      t' = applyPatch ⟨some .locked, patchTx .lock t receiptHash⟩ now t ∧
      file' = .valid (pre ++ t' :: post) := by
  unfold lockTokens lockResume lockSubmit at h
  split at h
  · simp at h
  · rename_i sub trade rh calls0 heq
    split at heq
    · simp at heq
    · rename_i trade2 hget
      split at heq
      · rename_i hpend
        simp only [] at heq
        split at heq
        · simp at heq
        · rename_i appHash happ
          split at heq
          · simp at heq
          · rename_i r hcre
            simp only [Prod.mk.injEq, Except.ok.injEq] at heq
            obtain ⟨⟨htr, hr⟩, hcalls⟩ := heq
            split at h
            · simp at h
            · rename_i t2 f2 hcommit
              simp only [OpResult.mk.injEq, Except.ok.injEq] at h
              obtain ⟨ht2, hcalls2, hf2⟩ := h
              unfold lockCommit at hcommit
              obtain ⟨pre, t0, post, hdec, hpre, hid0, ht0, hf0⟩ :=
                updateTrade_ok_inv _ _ _ _ _ _ hcommit
              have hgt0 : getTrade tradeId file = some t0 :=
                getTrade_of_decomp tradeId file t0 pre post hdec hpre hid0
              rw [hget] at hgt0
              have e1 : trade2 = t0 := Option.some.inj hgt0
              have e2 : trade = t0 := htr.symm.trans e1
              refine ⟨t0, pre, post, rh, hdec, hpre, hid0, ?_, ?_, ?_, ?_⟩
              · have hp : trade2.state = .pending := beq_iff_eq.mp hpend
                rw [e1] at hp
                exact hp
              · rw [← hcalls2, ← hcalls, e1]
              · rw [← ht2, ht0, e2]
                simp [patchTx]
              · rw [← hf2, hf0, ← ht2, ht0, e2]
      · simp at heq

theorem lockTokens_error_frame (contractAddress : String)
    (ledger : LedgerCall → LedgerOutcome) (now tradeId : String) (file : StoreFile)
    (r : OpResult) (e : EscrowError)
    (hr : lockTokens contractAddress ledger now tradeId file = r)
    (he : r.result = .error e) : r.file = file := by
  unfold lockTokens lockResume at hr
  split at hr
  · rw [← hr]
  · split at hr
    · rw [← hr]
    · rw [← hr] at he
      simp at he

theorem markDelivered_notFound (now tradeId : String) (file : StoreFile)
    (hget : getTrade tradeId file = none) :
    markDelivered now tradeId file = ⟨.error (.notFound tradeId), [], file⟩ := by
  unfold markDelivered
  rw [hget]

theorem markDelivered_not_locked (now tradeId : String) (file : StoreFile) (t : Trade)
    (hget : getTrade tradeId file = some t) (hst : t.state ≠ .locked) :
    markDelivered now tradeId file = ⟨.error (.invalidState t.state), [], file⟩ := by
  have hb : (t.state == .locked) = false := beq_eq_false_iff_ne.mpr hst
  unfold markDelivered
  rw [hget]
  simp [hb]

theorem markDelivered_eq_ok (now tradeId : String) (file : StoreFile)
    (t : Trade) (pre post : List Trade)
    (hdec : loadTrades file = pre ++ t :: post)
    (hpre : ∀ x ∈ pre, x.id ≠ tradeId) (hid : t.id = tradeId)
    (hst : t.state = .locked) :
    markDelivered now tradeId file =
      ⟨.ok (applyPatch ⟨some .delivered, none⟩ now t), [],
       .valid (pre ++ applyPatch ⟨some .delivered, none⟩ now t :: post)⟩ := by
  have hget := getTrade_of_decomp tradeId file t pre post hdec hpre hid
  have hupd := updateTrade_eq tradeId ⟨some .delivered, none⟩ now file t pre post hdec hpre hid
  unfold markDelivered
  simp only [hget, hst, hupd]
  rfl

theorem markDelivered_ok_inv (now tradeId : String) (file : StoreFile)
    (t' : Trade) (calls : List LedgerCall) (file' : StoreFile)
    (h : markDelivered now tradeId file = ⟨.ok t', calls, file'⟩) :
    ∃ t pre post,
      loadTrades file = pre ++ t :: post ∧ (∀ x ∈ pre, x.id ≠ tradeId) ∧
      t.id = tradeId ∧ t.state = .locked ∧ calls = [] ∧
      t' = applyPatch ⟨some .delivered, none⟩ now t ∧
      file' = .valid (pre ++ t' :: post) := by
  unfold markDelivered at h
  split at h
  · simp at h
  · rename_i trade hget
    split at h
    · rename_i hlock
      split at h
      · simp at h
      · rename_i t2 f2 hcommit
        simp only [OpResult.mk.injEq, Except.ok.injEq] at h
        obtain ⟨ht2, hcalls2, hf2⟩ := h
        obtain ⟨pre, t0, post, hdec, hpre, hid0, ht0, hf0⟩ :=
          updateTrade_ok_inv _ _ _ _ _ _ hcommit
        have hgt0 : getTrade tradeId file = some t0 :=
          getTrade_of_decomp tradeId file t0 pre post hdec hpre hid0
        rw [hget] at hgt0
        have e1 : trade = t0 := Option.some.inj hgt0
        refine ⟨t0, pre, post, hdec, hpre, hid0, ?_, hcalls2.symm, ?_, ?_⟩
        · have hp : trade.state = .locked := beq_iff_eq.mp hlock
          rw [e1] at hp
          exact hp
        · rw [← ht2, ht0]
        · rw [← hf2, hf0, ← ht2, ht0]
    · simp at h

theorem markDelivered_error_frame (now tradeId : String) (file : StoreFile)
    (r : OpResult) (e : EscrowError)
    (hr : markDelivered now tradeId file = r)
    (he : r.result = .error e) : r.file = file := by
  unfold markDelivered at hr
  split at hr
  · rw [← hr]
  · split at hr
    · split at hr
      · rw [← hr]
      · rw [← hr] at he
        simp at he
    · rw [← hr]

theorem releaseTokens_notFound (ledger : LedgerCall → LedgerOutcome)
    (now tradeId : String) (file : StoreFile)
    (hget : getTrade tradeId file = none) :
    releaseTokens ledger now tradeId file = ⟨.error (.notFound tradeId), [], file⟩ := by
  unfold releaseTokens
  rw [hget]

theorem releaseTokens_not_releasable (ledger : LedgerCall → LedgerOutcome)
    (now tradeId : String) (file : StoreFile) (t : Trade)
    (hget : getTrade tradeId file = some t)
    (hst1 : t.state ≠ .locked) (hst2 : t.state ≠ .delivered) :
    releaseTokens ledger now tradeId file = ⟨.error (.invalidState t.state), [], file⟩ := by
  have hb1 : (t.state == .locked) = false := beq_eq_false_iff_ne.mpr hst1
  have hb2 : (t.state == .delivered) = false := beq_eq_false_iff_ne.mpr hst2
  unfold releaseTokens
  rw [hget]
  simp [hb1, hb2]

theorem releaseTokens_eq_ok (ledger : LedgerCall → LedgerOutcome)
    (now tradeId : String) (file : StoreFile)
    (t : Trade) (pre post : List Trade) (receiptHash : String)
    (hdec : loadTrades file = pre ++ t :: post)
    (hpre : ∀ x ∈ pre, x.id ≠ tradeId) (hid : t.id = tradeId)
    (hst : t.state = .locked ∨ t.state = .delivered)
    (hrel : ledger (.releaseEscrow t.tradeHash) = .confirmed receiptHash) :
    releaseTokens ledger now tradeId file =
      ⟨.ok (applyPatch ⟨some .released, patchTx .release t receiptHash⟩ now t),
       [.releaseEscrow t.tradeHash],
       .valid (pre ++ applyPatch ⟨some .released, patchTx .release t receiptHash⟩ now t :: post)⟩ := by
  have hget := getTrade_of_decomp tradeId file t pre post hdec hpre hid
  have hupd := updateTrade_eq tradeId
    ⟨some .released, some { t.txHashes with release := some receiptHash }⟩
    now file t pre post hdec hpre hid
  have hb : (t.state == .locked || t.state == .delivered) = true := by
    rcases hst with h | h <;> simp [h]
  unfold releaseTokens
  simp only [hget, hb, hrel, hupd, patchTx]
  rfl

theorem releaseTokens_ok_inv (ledger : LedgerCall → LedgerOutcome)
    (now tradeId : String) (file : StoreFile)
    (t' : Trade) (calls : List LedgerCall) (file' : StoreFile)
    (h : releaseTokens ledger now tradeId file = ⟨.ok t', calls, file'⟩) :
    ∃ t pre post receiptHash,
      loadTrades file = pre ++ t :: post ∧ (∀ x ∈ pre, x.id ≠ tradeId) ∧
      t.id = tradeId ∧ (t.state = .locked ∨ t.state = .delivered) ∧
      calls = [.releaseEscrow t.tradeHash] ∧
      t' = applyPatch ⟨some .released, patchTx .release t receiptHash⟩ now t ∧
      file' = .valid (pre ++ t' :: post) := by
  unfold releaseTokens at h
  split at h
  · simp at h
  · rename_i trade hget
    split at h
    · rename_i hguard
      simp only [] at h
      split at h
      · simp at h
      · rename_i receiptHash hrel
        split at h
        · simp at h
        · rename_i t2 f2 hcommit
          simp only [OpResult.mk.injEq, Except.ok.injEq] at h
          obtain ⟨ht2, hcalls2, hf2⟩ := h
          obtain ⟨pre, t0, post, hdec, hpre, hid0, ht0, hf0⟩ :=
            updateTrade_ok_inv _ _ _ _ _ _ hcommit
          have hgt0 : getTrade tradeId file = some t0 :=
            getTrade_of_decomp tradeId file t0 pre post hdec hpre hid0
          rw [hget] at hgt0
          have e1 : trade = t0 := Option.some.inj hgt0
          refine ⟨t0, pre, post, receiptHash, hdec, hpre, hid0, ?_, ?_, ?_, ?_⟩
          · rw [e1] at hguard
            simpa only [Bool.or_eq_true, beq_iff_eq] using hguard
          · rw [← hcalls2, e1]
          · rw [← ht2, ht0, e1]
            simp [patchTx]
          · rw [← hf2, hf0, ← ht2, ht0, e1]
    · simp at h

theorem releaseTokens_error_frame (ledger : LedgerCall → LedgerOutcome)
    (now tradeId : String) (file : StoreFile) (r : OpResult) (e : EscrowError)
    (hr : releaseTokens ledger now tradeId file = r)
    (he : r.result = .error e) : r.file = file := by
  unfold releaseTokens at hr
  split at hr
  · rw [← hr]
  · split at hr
    · simp only [] at hr
      split at hr
      · rw [← hr]
      · split at hr
        · rw [← hr]
        · rw [← hr] at he
          simp at he
    · rw [← hr]

theorem refundTokens_notFound (ledger : LedgerCall → LedgerOutcome)
    (now tradeId : String) (file : StoreFile)
    (hget : getTrade tradeId file = none) :
    refundTokens ledger now tradeId file = ⟨.error (.notFound tradeId), [], file⟩ := by
  unfold refundTokens
  rw [hget]

theorem refundTokens_not_locked (ledger : LedgerCall → LedgerOutcome)
    (now tradeId : String) (file : StoreFile) (t : Trade)
    (hget : getTrade tradeId file = some t) (hst : t.state ≠ .locked) :
    refundTokens ledger now tradeId file = ⟨.error (.invalidState t.state), [], file⟩ := by
  have hb : (t.state == .locked) = false := beq_eq_false_iff_ne.mpr hst
  unfold refundTokens
  rw [hget]
  simp [hb]

theorem refundTokens_eq_ok (ledger : LedgerCall → LedgerOutcome)
    (now tradeId : String) (file : StoreFile)
    (t : Trade) (pre post : List Trade) (receiptHash : String)
    (hdec : loadTrades file = pre ++ t :: post)
    (hpre : ∀ x ∈ pre, x.id ≠ tradeId) (hid : t.id = tradeId)
    (hst : t.state = .locked)
    (href : ledger (.refundEscrow t.tradeHash) = .confirmed receiptHash) :
    refundTokens ledger now tradeId file =
      ⟨.ok (applyPatch ⟨some .refunded, patchTx .refund t receiptHash⟩ now t),
       [.refundEscrow t.tradeHash],
       .valid (pre ++ applyPatch ⟨some .refunded, patchTx .refund t receiptHash⟩ now t :: post)⟩ := by
  have hget := getTrade_of_decomp tradeId file t pre post hdec hpre hid
  have hupd := updateTrade_eq tradeId
    ⟨some .refunded, some { t.txHashes with refund := some receiptHash }⟩
    now file t pre post hdec hpre hid
  unfold refundTokens
  simp only [hget, hst, href, hupd, patchTx]
  rfl

theorem refundTokens_ok_inv (ledger : LedgerCall → LedgerOutcome)
    (now tradeId : String) (file : StoreFile)
    (t' : Trade) (calls : List LedgerCall) (file' : StoreFile)
    (h : refundTokens ledger now tradeId file = ⟨.ok t', calls, file'⟩) :
    ∃ t pre post receiptHash,
      loadTrades file = pre ++ t :: post ∧ (∀ x ∈ pre, x.id ≠ tradeId) ∧
      t.id = tradeId ∧ t.state = .locked ∧
      calls = [.refundEscrow t.tradeHash] ∧
      t' = applyPatch ⟨some .refunded, patchTx .refund t receiptHash⟩ now t ∧
      file' = .valid (pre ++ t' :: post) := by
  unfold refundTokens at h
  split at h
  · simp at h
  · rename_i trade hget
    split at h
    · rename_i hlock
      simp only [] at h
      split at h
      · simp at h
      · rename_i receiptHash href
        split at h
        · simp at h
        · rename_i t2 f2 hcommit
          simp only [OpResult.mk.injEq, Except.ok.injEq] at h
          obtain ⟨ht2, hcalls2, hf2⟩ := h
          obtain ⟨pre, t0, post, hdec, hpre, hid0, ht0, hf0⟩ :=
            updateTrade_ok_inv _ _ _ _ _ _ hcommit
          have hgt0 : getTrade tradeId file = some t0 :=
            getTrade_of_decomp tradeId file t0 pre post hdec hpre hid0
          rw [hget] at hgt0
          have e1 : trade = t0 := Option.some.inj hgt0
          refine ⟨t0, pre, post, receiptHash, hdec, hpre, hid0, ?_, ?_, ?_, ?_⟩
          · have hp : trade.state = .locked := beq_iff_eq.mp hlock
            rw [e1] at hp
            exact hp
          · rw [← hcalls2, e1]
          · rw [← ht2, ht0, e1]
            simp [patchTx]
          · rw [← hf2, hf0, ← ht2, ht0, e1]
    · simp at h

theorem refundTokens_error_frame (ledger : LedgerCall → LedgerOutcome)
    (now tradeId : String) (file : StoreFile) (r : OpResult) (e : EscrowError)
    (hr : refundTokens ledger now tradeId file = r)
    (he : r.result = .error e) : r.file = file := by
  unfold refundTokens at hr
  split at hr
  · rw [← hr]
  · split at hr
    · simp only [] at hr
      split at hr
      · rw [← hr]
      · split at hr
        · rw [← hr]
        · rw [← hr] at he
          simp at he
    · rw [← hr]

/-! ### Lemmas about `applyOp` -/

theorem applyOp_notFound (contractAddress : String)
    (ledger : LedgerCall → LedgerOutcome) (now tradeId : String) (file : StoreFile)
    (op : LifecycleOp) (hget : getTrade tradeId file = none) :
    applyOp contractAddress ledger now tradeId file op =
      ⟨.error (.notFound tradeId), [], file⟩ := by
  cases op with
  | lock => exact lockTokens_notFound _ _ _ _ _ hget
  | deliver => exact markDelivered_notFound _ _ _ hget
  | release => exact releaseTokens_notFound _ _ _ _ hget
  | refund => exact refundTokens_notFound _ _ _ _ hget

theorem applyOp_invalidState (contractAddress : String)
    (ledger : LedgerCall → LedgerOutcome) (now tradeId : String) (file : StoreFile)
    (op : LifecycleOp) (t : Trade)
    (hget : getTrade tradeId file = some t) (hst : legalSource op t.state = false) :
    applyOp contractAddress ledger now tradeId file op =
      ⟨.error (.invalidState t.state), [], file⟩ := by
  cases op with
  | lock =>
    refine lockTokens_not_pending _ _ _ _ _ _ hget ?_
    intro hh
    rw [hh] at hst
    simp [legalSource] at hst
  | deliver =>
    refine markDelivered_not_locked _ _ _ _ hget ?_
    intro hh
    rw [hh] at hst
    simp [legalSource] at hst
  | release =>
    refine releaseTokens_not_releasable _ _ _ _ _ hget ?_ ?_ <;>
      · intro hh
        rw [hh] at hst
        simp [legalSource] at hst
  | refund =>
    refine refundTokens_not_locked _ _ _ _ _ hget ?_
    intro hh
    rw [hh] at hst
    simp [legalSource] at hst

theorem applyOp_error_frame (contractAddress : String)
    (ledger : LedgerCall → LedgerOutcome) (now tradeId : String) (file : StoreFile)
    (op : LifecycleOp) (e : EscrowError)
    (he : (applyOp contractAddress ledger now tradeId file op).result = .error e) :
    (applyOp contractAddress ledger now tradeId file op).file = file := by
  cases op with
  | lock => exact lockTokens_error_frame _ _ _ _ _ _ _ rfl he
  | deliver => exact markDelivered_error_frame _ _ _ _ _ rfl he
  | release => exact releaseTokens_error_frame _ _ _ _ _ _ rfl he
  | refund => exact refundTokens_error_frame _ _ _ _ _ _ rfl he

theorem legalSource_lock (s : TradeState) (h : legalSource .lock s = true) :
    s = .pending := by
  cases s <;> simp_all [legalSource]

theorem legalSource_deliver (s : TradeState) (h : legalSource .deliver s = true) :
    s = .locked := by
  cases s <;> simp_all [legalSource]

theorem legalSource_release (s : TradeState) (h : legalSource .release s = true) :
    s = .locked ∨ s = .delivered := by
  cases s <;> simp_all [legalSource]

theorem legalSource_refund (s : TradeState) (h : legalSource .refund s = true) :
    s = .locked := by
  cases s <;> simp_all [legalSource]

theorem legalSource_edge (op : LifecycleOp) (s : TradeState)
    (h : legalSource op s = true) : edgeAllowed s (opTarget op) = true := by
  cases op <;> cases s <;> simp_all [legalSource, edgeAllowed, opTarget]

theorem applyOp_ok_inv (contractAddress : String)
    (ledger : LedgerCall → LedgerOutcome) (now tradeId : String) (file : StoreFile)
    (op : LifecycleOp) (t' : Trade) (calls : List LedgerCall) (file' : StoreFile)
    (h : applyOp contractAddress ledger now tradeId file op = ⟨.ok t', calls, file'⟩) :
    ∃ t pre post receiptHash,
      loadTrades file = pre ++ t :: post ∧ (∀ x ∈ pre, x.id ≠ tradeId) ∧
      t.id = tradeId ∧ legalSource op t.state = true ∧
      t' = applyPatch ⟨some (opTarget op), patchTx op t receiptHash⟩ now t ∧
      file' = .valid (pre ++ t' :: post) := by
  cases op with
  | lock =>
    obtain ⟨t, pre, post, rh, h1, h2, h3, h4, _, h6, h7⟩ :=
      lockTokens_ok_inv _ _ _ _ _ _ _ _ h
    exact ⟨t, pre, post, rh, h1, h2, h3, by simp [legalSource, h4], h6, h7⟩
  | deliver =>
    obtain ⟨t, pre, post, h1, h2, h3, h4, _, h6, h7⟩ :=
      markDelivered_ok_inv _ _ _ _ _ _ h
    exact ⟨t, pre, post, "", h1, h2, h3, by simp [legalSource, h4], h6, h7⟩
  | release =>
    obtain ⟨t, pre, post, rh, h1, h2, h3, h4, _, h6, h7⟩ :=
      releaseTokens_ok_inv _ _ _ _ _ _ _ h
    refine ⟨t, pre, post, rh, h1, h2, h3, ?_, h6, h7⟩
    rcases h4 with h4 | h4 <;> simp [legalSource, h4]
  | refund =>
    obtain ⟨t, pre, post, rh, h1, h2, h3, h4, _, h6, h7⟩ :=
      refundTokens_ok_inv _ _ _ _ _ _ _ h
    exact ⟨t, pre, post, rh, h1, h2, h3, by simp [legalSource, h4], h6, h7⟩

/-! ### Reachable stores and the store invariant -/

/-- The store files the escrow manager can produce: any store whose trade
list reads back empty (a fresh installation, a missing file, or a corrupted
file), extended by `initiateTrade` and the four lifecycle operations with
arbitrary parameters, id/timestamp inputs and ledger behaviour. -/
inductive Reachable : StoreFile → Prop where
  | empty (file : StoreFile) (h : loadTrades file = []) : Reachable file
  | initiate (keccak256 : String → String) (tradeId now : String)
      (params : InitiateParams) (file : StoreFile) :
      Reachable file →
      Reachable (initiateTrade keccak256 tradeId now params file).2
  | step (contractAddress : String) (ledger : LedgerCall → LedgerOutcome)
      (now tradeId : String) (op : LifecycleOp) (file : StoreFile) :
      Reachable file →
      Reachable (applyOp contractAddress ledger now tradeId file op).file

/-- Per-record invariant maintained by every reachable store: no record is
`disputed`; the `escrowCreate` receipt is present exactly when the record
has left `pending`; the `release` and `refund` receipts are present exactly
in states `released` and `refunded` respectively. -/
def TradeInv (t : Trade) : Prop :=
  t.state ≠ .disputed ∧
  (t.txHashes.escrowCreate.isSome ↔ t.state ≠ .pending) ∧
  (t.txHashes.release.isSome ↔ t.state = .released) ∧
  (t.txHashes.refund.isSome ↔ t.state = .refunded)

def StoreInv (file : StoreFile) : Prop := ∀ t ∈ loadTrades file, TradeInv t

theorem eq_none_of_not_isSome {α : Type} (x : Option α) (h : ¬ x.isSome = true) :
    x = none := by
  cases x
  · rfl
  · simp at h

theorem some_orElse {α : Type} (a : α) (f : Unit → Option α) :
    (Option.some a).orElse f = some a := rfl

theorem TradeInv_initiate (keccak256 : String → String) (tradeId now : String)
    (params : InitiateParams) (file : StoreFile) :
    TradeInv (initiateTrade keccak256 tradeId now params file).1 := by
  simp [TradeInv, initiateTrade, TxHashes.empty]

theorem TradeInv_step (op : LifecycleOp) (t : Trade) (receiptHash now : String)
    (hInv : TradeInv t) (hleg : legalSource op t.state = true) :
    TradeInv (applyPatch ⟨some (opTarget op), patchTx op t receiptHash⟩ now t) := by
  obtain ⟨hd, he, hr, hf⟩ := hInv
  cases op with
  | lock =>
    have hp := legalSource_lock t.state hleg
    have hrel : t.txHashes.release = none :=
      eq_none_of_not_isSome _ (by simp [hr, hp])
    have href : t.txHashes.refund = none :=
      eq_none_of_not_isSome _ (by simp [hf, hp])
    refine ⟨by simp [opTarget], ?_, ?_, ?_⟩ <;>
      simp [patchTx, mergeTx, opTarget, some_orElse, orElse_self, hrel, href]
  | deliver =>
    have hp := legalSource_deliver t.state hleg
    refine ⟨by simp [opTarget], ?_, ?_, ?_⟩ <;>
      simp [patchTx, mergeTx_empty, opTarget, he, hr, hf, hp]
  | release =>
    have href : t.txHashes.refund = none := by
      have hne : t.state ≠ .refunded := by
        rcases legalSource_release t.state hleg with h | h <;> simp [h]
      exact eq_none_of_not_isSome _ (by simp [hf, hne])
    have hesc : t.txHashes.escrowCreate.isSome := by
      rcases legalSource_release t.state hleg with h | h <;> simp [he, h]
    refine ⟨by simp [opTarget], ?_, ?_, ?_⟩ <;>
      simp [patchTx, mergeTx, opTarget, some_orElse, orElse_self, href, hesc]
  | refund =>
    have hp := legalSource_refund t.state hleg
    have hrel : t.txHashes.release = none :=
      eq_none_of_not_isSome _ (by simp [hr, hp])
    have hesc : t.txHashes.escrowCreate.isSome := by simp [he, hp]
    refine ⟨by simp [opTarget], ?_, ?_, ?_⟩ <;>
      simp [patchTx, mergeTx, opTarget, some_orElse, orElse_self, hrel, hesc]

theorem StoreInv_reachable (file : StoreFile) (h : Reachable file) :
    StoreInv file := by
  induction h with
  | empty f h0 =>
    intro t ht
    rw [h0] at ht
    simp at ht
  | initiate k tradeId now p f hf ih =>
    intro t ht
    have hmem : t ∈ loadTrades f ++ [(initiateTrade k tradeId now p f).1] := by
      simpa [initiateTrade, saveTrades, loadTrades] using ht
    rcases List.mem_append.mp hmem with hL | hR
    · exact ih t hL
    · have : t = (initiateTrade k tradeId now p f).1 := by simpa using hR
      rw [this]
      exact TradeInv_initiate k tradeId now p f
  | step c ledger now tradeId op f hf ih =>
    intro t ht
    rcases hres : applyOp c ledger now tradeId f op with ⟨res, calls, file'⟩
    rw [hres] at ht
    cases res with
    | error e =>
      have hfr : (applyOp c ledger now tradeId f op).file = f :=
        applyOp_error_frame c ledger now tradeId f op e (by rw [hres])
      rw [hres] at hfr
      simp only at hfr ht
      rw [hfr] at ht
      exact ih t ht
    | ok t' =>
      obtain ⟨t0, pre, post, rh, hdec, hpre, hid0, hleg, ht', hfile⟩ :=
        applyOp_ok_inv _ _ _ _ _ _ _ _ _ hres
      simp only at ht
      rw [hfile] at ht
      simp only [loadTrades] at ht
      rcases List.mem_append.mp ht with hL | hR
      · exact ih t (by rw [hdec]; exact List.mem_append.mpr (Or.inl hL))
      · rcases List.mem_cons.mp hR with rfl | hpost
        · have hInv0 : TradeInv t0 := ih t0 (by rw [hdec]; simp)
          rw [ht']
          exact TradeInv_step op t0 rh now hInv0 hleg
        · exact ih t (by rw [hdec]; exact List.mem_append.mpr (Or.inr (List.mem_cons.mpr (Or.inr hpost))))

/-! ### Concrete instances used in closed evaluations -/

/-- The identity function on strings, standing in for `keccak256` in closed
evaluations; it is injective, so it is a collision-free hash. -/
def idHash : String → String := fun s => s

/-- A ledger oracle that confirms every submitted transaction. -/
def ledgerConfirm : LedgerCall → LedgerOutcome := fun _ => .confirmed "0xreceipt"

/-- A ledger oracle on which every submitted transaction fails. -/
def ledgerReject : LedgerCall → LedgerOutcome := fun _ => .failed

def sampleParams : InitiateParams := ⟨"svc_1", "agentB", "agentS", "0xB", "0xA", "50"⟩

/-- Store after one `initiateTrade` on a fresh installation. -/
def fileA : StoreFile := (initiateTrade idHash "trade_1" "T0" sampleParams .absent).2

/-- Store after additionally locking that trade. -/
def fileB : StoreFile := (applyOp "0xC" ledgerConfirm "T1" "trade_1" fileA .lock).file

theorem reachable_fileA : Reachable fileA :=
  .initiate idHash "trade_1" "T0" sampleParams .absent (.empty .absent rfl)

theorem reachable_fileB : Reachable fileB :=
  .step "0xC" ledgerConfirm "T1" "trade_1" .lock fileA reachable_fileA

/-! ### Claim theorems -/

/-- C1 (amended): `initiateTrade` performs no validation at all: for every
input — including a non-positive `amount` and arbitrary malformed address
strings — it succeeds, returning a new `pending` trade that carries the
input fields verbatim and appending it to the stored list.  No
`InvalidArgument` failure path exists in the operation. -/
theorem initiate_no_validation (keccak256 : String → String) (tradeId now : String)
    (params : InitiateParams) (file : StoreFile) :
    (initiateTrade keccak256 tradeId now params file).1.state = .pending ∧
    (initiateTrade keccak256 tradeId now params file).1.amount = params.amount ∧
    (initiateTrade keccak256 tradeId now params file).1.buyerAddress = params.buyerAddress ∧
    (initiateTrade keccak256 tradeId now params file).1.sellerAddress = params.sellerAddress ∧
    (initiateTrade keccak256 tradeId now params file).2 =
      .valid (loadTrades file ++ [(initiateTrade keccak256 tradeId now params file).1]) :=
  ⟨rfl, rfl, rfl, rfl, rfl⟩

/-- C1 (counterexample): an `initiateTrade` call with the non-positive
amount `"-5"` and a malformed buyer address succeeds and inserts a
`pending` record, instead of failing with `InvalidArgument` without
inserting, as the claim requires. -/
theorem initiate_accepts_invalid_input :
    (initiateTrade idHash "trade_x" "T0"
        ⟨"lst_1", "bA", "sA", "not-an-address", "", "-5"⟩ .absent).1.state = .pending ∧
    (initiateTrade idHash "trade_x" "T0"
        ⟨"lst_1", "bA", "sA", "not-an-address", "", "-5"⟩ .absent).1.amount = "-5" ∧
    loadTrades (initiateTrade idHash "trade_x" "T0"
        ⟨"lst_1", "bA", "sA", "not-an-address", "", "-5"⟩ .absent).2 ≠ [] :=
  ⟨rfl, rfl, by decide⟩

/-- C9: `initiateTrade` immediately followed by `getTrade` with the
returned trade's id yields exactly the new record: its state is `pending`
and its `amount` is the input string unchanged (the store round-trips the
decimal string bit for bit).  The only assumption is the id generator's
freshness: the generated id does not already occur in the store. -/
theorem initiate_then_getTrade (keccak256 : String → String) (tradeId now : String)
    (params : InitiateParams) (file : StoreFile)
    (hfresh : ∀ t ∈ loadTrades file, t.id ≠ tradeId) :
    getTrade (initiateTrade keccak256 tradeId now params file).1.id
        (initiateTrade keccak256 tradeId now params file).2 =
      some (initiateTrade keccak256 tradeId now params file).1 ∧
    (initiateTrade keccak256 tradeId now params file).1.state = .pending ∧
    (initiateTrade keccak256 tradeId now params file).1.amount = params.amount := by
  refine ⟨?_, rfl, rfl⟩
  unfold getTrade
  have hload : loadTrades (initiateTrade keccak256 tradeId now params file).2 =
      loadTrades file ++ [(initiateTrade keccak256 tradeId now params file).1] := rfl
  rw [hload]
  exact find?_append_first _ (loadTrades file) [] _
    (fun x hx => beq_eq_false_iff_ne.mpr (hfresh x hx)) (beq_iff_eq.mpr rfl)

/-- C9 witness: the round-trip at a concrete input on the empty store. -/
theorem initiate_then_getTrade_witness :
    (∀ t ∈ loadTrades (.absent : StoreFile), t.id ≠ "trade_w") ∧
    (getTrade (initiateTrade idHash "trade_w" "T1" sampleParams .absent).1.id
        (initiateTrade idHash "trade_w" "T1" sampleParams .absent).2 =
      some (initiateTrade idHash "trade_w" "T1" sampleParams .absent).1 ∧
    (initiateTrade idHash "trade_w" "T1" sampleParams .absent).1.state = .pending ∧
    (initiateTrade idHash "trade_w" "T1" sampleParams .absent).1.amount =
      sampleParams.amount) :=
  ⟨by simp [loadTrades],
   initiate_then_getTrade idHash "trade_w" "T1" sampleParams .absent
     (by simp [loadTrades])⟩

/-- C7: `lockTokens` on a trade whose state is not `pending` fails with an
invalid-state error before any ledger interaction: the submitted ledger
transaction list is empty — no `approve` and no `createEscrow` — and the
store is unchanged. -/
theorem lock_non_pending_no_ledger (contractAddress : String)
    (ledger : LedgerCall → LedgerOutcome) (now tradeId : String) (file : StoreFile)
    (t : Trade) (hget : getTrade tradeId file = some t) (hst : t.state ≠ .pending) :
    lockTokens contractAddress ledger now tradeId file =
      ⟨.error (.invalidState t.state), [], file⟩ :=
  lockTokens_not_pending contractAddress ledger now tradeId file t hget hst

/-- C7 witness: locking the already-locked trade of `fileB`. -/
theorem lock_non_pending_no_ledger_witness :
    (∃ t, getTrade "trade_1" fileB = some t ∧ t.state = .locked) ∧
    (lockTokens "0xC" ledgerConfirm "T2" "trade_1" fileB).ledgerCalls = [] := by
  refine ⟨⟨(applyOp "0xC" ledgerConfirm "T1" "trade_1" fileA .lock).result.toOption.getD
    (initiateTrade idHash "trade_1" "T0" sampleParams .absent).1, by decide, by decide⟩, ?_⟩
  have hget : getTrade "trade_1" fileB =
      some ((applyOp "0xC" ledgerConfirm "T1" "trade_1" fileA .lock).result.toOption.getD
        (initiateTrade idHash "trade_1" "T0" sampleParams .absent).1) := by decide
  have hst : ((applyOp "0xC" ledgerConfirm "T1" "trade_1" fileA .lock).result.toOption.getD
      (initiateTrade idHash "trade_1" "T0" sampleParams .absent).1).state ≠ .pending := by decide
  rw [lock_non_pending_no_ledger "0xC" ledgerConfirm "T2" "trade_1" fileB _ hget hst]

/-- C3: whenever a lifecycle operation returns an error — in particular
whenever a ledger transaction it submitted fails — the stored trades file
after the call is exactly the file before it: no record's `state` or
`updatedAt` is modified, and the error itself is the operation's result. -/
theorem failed_op_leaves_store (contractAddress : String)
    (ledger : LedgerCall → LedgerOutcome) (now tradeId : String) (file : StoreFile)
    (op : LifecycleOp) (e : EscrowError)
    (he : (applyOp contractAddress ledger now tradeId file op).result = .error e) :
    (applyOp contractAddress ledger now tradeId file op).file = file :=
  applyOp_error_frame contractAddress ledger now tradeId file op e he

/-- C3 witness: a lock attempt whose `approve` transaction fails leaves the
one-pending-trade store untouched. -/
theorem failed_op_leaves_store_witness :
    (applyOp "0xC" ledgerReject "T1" "trade_1" fileA .lock).result =
      .error (.ledgerFailure (.approve "0xC" "50")) ∧
    (applyOp "0xC" ledgerReject "T1" "trade_1" fileA .lock).file = fileA :=
  ⟨by decide,
   failed_op_leaves_store "0xC" ledgerReject "T1" "trade_1" fileA .lock
     (.ledgerFailure (.approve "0xC" "50")) (by decide)⟩

/-- C10: a store file that is absent, unreadable, or holds invalid JSON
reads back as the empty trade list, so `getTrade` is `none` for every id,
the two list queries are empty, and every lifecycle operation fails with a
not-found error — corruption is silently treated as an empty store. -/
theorem corrupted_store_is_empty (file : StoreFile)
    (hf : file = .absent ∨ file = .unreadable ∨ file = .invalidJson) :
    loadTrades file = [] ∧
    (∀ tradeId, getTrade tradeId file = none) ∧
    getActiveTrades file = [] ∧
    (∀ agentId, getTradesByAgent agentId file = []) ∧
    (∀ contractAddress ledger now tradeId op,
      applyOp contractAddress ledger now tradeId file op =
        ⟨.error (.notFound tradeId), [], file⟩) := by
  have hload : loadTrades file = [] := by
    rcases hf with rfl | rfl | rfl <;> rfl
  refine ⟨hload, ?_, ?_, ?_, ?_⟩
  · intro tradeId
    unfold getTrade
    rw [hload]
    rfl
  · unfold getActiveTrades
    rw [hload]
    rfl
  · intro agentId
    unfold getTradesByAgent
    rw [hload]
    rfl
  · intro contractAddress ledger now tradeId op
    refine applyOp_notFound contractAddress ledger now tradeId file op ?_
    unfold getTrade
    rw [hload]
    rfl

/-- C10 witness: the invalid-JSON store at concrete query inputs. -/
theorem corrupted_store_is_empty_witness :
    ((.invalidJson : StoreFile) = .absent ∨ (.invalidJson : StoreFile) = .unreadable ∨
      (.invalidJson : StoreFile) = .invalidJson) ∧
    getTrade "trade_1" .invalidJson = none ∧
    applyOp "0xC" ledgerConfirm "T1" "trade_1" .invalidJson .refund =
      ⟨.error (.notFound "trade_1"), [], .invalidJson⟩ := by
  have h := corrupted_store_is_empty .invalidJson (Or.inr (Or.inr rfl))
  exact ⟨Or.inr (Or.inr rfl), h.2.1 "trade_1", h.2.2.2.2 "0xC" ledgerConfirm "T1" "trade_1" .refund⟩

/-- The locked trade stored in `fileB`. -/
def tradeB : Trade :=
  (applyOp "0xC" ledgerConfirm "T1" "trade_1" fileA .lock).result.toOption.getD
    (initiateTrade idHash "trade_1" "T0" sampleParams .absent).1

/-- C2: the lifecycle state machine.  With the trade loaded from the store,
an operation whose source-state guard rejects the current state fails with
an invalid-state error and leaves the store file unchanged (this covers
release on a pending trade, refund on a released or delivered trade, and
every other illegal edge); and every successful operation moves the trade
exactly along pending→locked (lock), locked→delivered (deliver),
locked→released and delivered→released (release), locked→refunded
(refund). -/
theorem lifecycle_state_machine (contractAddress : String)
    (ledger : LedgerCall → LedgerOutcome) (now tradeId : String) (file : StoreFile)
    (op : LifecycleOp) (t : Trade) (hget : getTrade tradeId file = some t) :
    (legalSource op t.state = false →
      applyOp contractAddress ledger now tradeId file op =
        ⟨.error (.invalidState t.state), [], file⟩) ∧
    (∀ t' calls file',
      applyOp contractAddress ledger now tradeId file op = ⟨.ok t', calls, file'⟩ →
      legalSource op t.state = true ∧ t'.state = opTarget op ∧
      edgeAllowed t.state t'.state = true) := by
  constructor
  · intro hst
    exact applyOp_invalidState contractAddress ledger now tradeId file op t hget hst
  · intro t' calls file' h
    obtain ⟨t0, pre, post, rh, hdec, hpre, hid0, hleg, ht', _⟩ :=
      applyOp_ok_inv _ _ _ _ _ _ _ _ _ h
    have e1 : t0 = t := by
      have hg := getTrade_of_decomp tradeId file t0 pre post hdec hpre hid0
      rw [hget] at hg
      exact (Option.some.inj hg).symm
    rw [e1] at hleg ht'
    have hts : t'.state = opTarget op := by rw [ht']; simp
    exact ⟨hleg, hts, hts ▸ legalSource_edge op t.state hleg⟩

/-- C2 witness: `lockTokens` on the already-locked trade of `fileB` is an
illegal edge and is rejected with the store unchanged. -/
theorem lifecycle_state_machine_witness :
    getTrade "trade_1" fileB = some tradeB ∧
    ((legalSource .lock tradeB.state = false →
      applyOp "0xC" ledgerConfirm "T2" "trade_1" fileB .lock =
        ⟨.error (.invalidState tradeB.state), [], fileB⟩) ∧
    (∀ t' calls file',
      applyOp "0xC" ledgerConfirm "T2" "trade_1" fileB .lock = ⟨.ok t', calls, file'⟩ →
      legalSource .lock tradeB.state = true ∧ t'.state = opTarget .lock ∧
      edgeAllowed tradeB.state t'.state = true)) :=
  ⟨by decide,
   lifecycle_state_machine "0xC" ledgerConfirm "T2" "trade_1" fileB .lock tradeB (by decide)⟩

/-- C5: in every reachable store, a trade's lock confirmation entry
(`txHashes.escrowCreate`) exists iff its state is `locked`, `delivered`,
`released` or `refunded` (the only way to reach `refunded` is a refund
performed after locking); equivalently a `pending` trade has no
`escrowCreate` entry and every trade that left `pending` has one. -/
theorem lock_receipt_iff_state (file : StoreFile) (h : Reachable file) :
    ∀ t ∈ loadTrades file,
      (t.txHashes.escrowCreate.isSome = true ↔
        (t.state = .locked ∨ t.state = .delivered ∨ t.state = .released ∨
         t.state = .refunded)) := by
  intro t ht
  obtain ⟨hd, he, _, _⟩ := StoreInv_reachable file h t ht
  rw [he]
  cases hs : t.state <;> simp_all

/-- C5 witness: the locked trade of the reachable store `fileB`. -/
theorem lock_receipt_iff_state_witness :
    Reachable fileB ∧ tradeB ∈ loadTrades fileB ∧
    (tradeB.txHashes.escrowCreate.isSome = true ↔
      (tradeB.state = .locked ∨ tradeB.state = .delivered ∨ tradeB.state = .released ∨
       tradeB.state = .refunded)) :=
  ⟨reachable_fileB, by decide,
   lock_receipt_iff_state fileB reachable_fileB tradeB (by decide)⟩

theorem patch_preserves_slots (op : LifecycleOp) (t : Trade) (rh now : String)
    (hInv : TradeInv t) (hleg : legalSource op t.state = true) :
    (∀ v, t.txHashes.escrowCreate = some v →
      (applyPatch ⟨some (opTarget op), patchTx op t rh⟩ now t).txHashes.escrowCreate = some v) ∧
    (∀ v, t.txHashes.release = some v →
      (applyPatch ⟨some (opTarget op), patchTx op t rh⟩ now t).txHashes.release = some v) ∧
    (∀ v, t.txHashes.refund = some v →
      (applyPatch ⟨some (opTarget op), patchTx op t rh⟩ now t).txHashes.refund = some v) := by
  obtain ⟨hd, he, hr, hf⟩ := hInv
  cases op with
  | lock =>
    have hp := legalSource_lock t.state hleg
    have hesc : t.txHashes.escrowCreate = none :=
      eq_none_of_not_isSome _ (by simp [he, hp])
    refine ⟨?_, ?_, ?_⟩ <;> intro v hv <;>
      simp_all [patchTx, mergeTx, some_orElse]
  | deliver =>
    refine ⟨?_, ?_, ?_⟩ <;> intro v hv <;>
      simp_all [patchTx, mergeTx_empty]
  | release =>
    have hrel : t.txHashes.release = none := by
      have hne : t.state ≠ .released := by
        rcases legalSource_release t.state hleg with h | h <;> simp [h]
      exact eq_none_of_not_isSome _ (by simp [hr, hne])
    refine ⟨?_, ?_, ?_⟩ <;> intro v hv <;>
      simp_all [patchTx, mergeTx, some_orElse]
  | refund =>
    have hp := legalSource_refund t.state hleg
    have href : t.txHashes.refund = none :=
      eq_none_of_not_isSome _ (by simp [hf, hp])
    refine ⟨?_, ?_, ?_⟩ <;> intro v hv <;>
      simp_all [patchTx, mergeTx, some_orElse]

/-- C6: each successful lifecycle operation on a reachable store changes
only the targeted trade's `state`, `txHashes` and `updatedAt`: the trade's
id, tradeHash (externalId), listing reference, party identifiers,
addresses, amount and createdAt are unchanged; every txHashes entry
present before the call keeps its value; every other stored trade is
untouched; and the trade list keeps its length — no trade is ever
removed. -/
theorem lifecycle_frame (contractAddress : String)
    (ledger : LedgerCall → LedgerOutcome) (now tradeId : String) (file : StoreFile)
    (op : LifecycleOp) (t' : Trade) (calls : List LedgerCall) (file' : StoreFile)
    (hreach : Reachable file)
    (h : applyOp contractAddress ledger now tradeId file op = ⟨.ok t', calls, file'⟩) :
    ∃ pre t post,
      loadTrades file = pre ++ t :: post ∧
      loadTrades file' = pre ++ t' :: post ∧
      (loadTrades file').length = (loadTrades file).length ∧
      t'.id = t.id ∧ t'.tradeHash = t.tradeHash ∧ t'.listingId = t.listingId ∧
      t'.buyerAgentId = t.buyerAgentId ∧ t'.sellerAgentId = t.sellerAgentId ∧
      t'.buyerAddress = t.buyerAddress ∧ t'.sellerAddress = t.sellerAddress ∧
      t'.amount = t.amount ∧ t'.createdAt = t.createdAt ∧
      (∀ v, t.txHashes.escrowCreate = some v → t'.txHashes.escrowCreate = some v) ∧
      (∀ v, t.txHashes.release = some v → t'.txHashes.release = some v) ∧
      (∀ v, t.txHashes.refund = some v → t'.txHashes.refund = some v) := by
  obtain ⟨t, pre, post, rh, hdec, hpre, hid0, hleg, ht', hfile⟩ :=
    applyOp_ok_inv _ _ _ _ _ _ _ _ _ h
  have hInv : TradeInv t := StoreInv_reachable file hreach t (by rw [hdec]; simp)
  obtain ⟨hs1, hs2, hs3⟩ := patch_preserves_slots op t rh now hInv hleg
  refine ⟨pre, t, post, hdec, by rw [hfile]; rfl, by rw [hfile, hdec]; simp [loadTrades],
    by rw [ht']; simp, by rw [ht']; simp, by rw [ht']; simp, by rw [ht']; simp,
    by rw [ht']; simp, by rw [ht']; simp, by rw [ht']; simp, by rw [ht']; simp,
    by rw [ht']; simp, ?_, ?_, ?_⟩
  · intro v hv
    rw [ht']
    exact hs1 v hv
  · intro v hv
    rw [ht']
    exact hs2 v hv
  · intro v hv
    rw [ht']
    exact hs3 v hv

/-- C6 witness: the successful lock on `fileA`. -/
theorem lifecycle_frame_witness :
    Reachable fileA ∧
    applyOp "0xC" ledgerConfirm "T1" "trade_1" fileA .lock =
      ⟨.ok tradeB,
       [.approve "0xC" "50", .createEscrow "0xA" "50" "trade_1:0xB:0xA:T0"],
       fileB⟩ ∧
    (∃ pre t post,
      loadTrades fileA = pre ++ t :: post ∧
      loadTrades fileB = pre ++ tradeB :: post ∧
      (loadTrades fileB).length = (loadTrades fileA).length ∧
      tradeB.id = t.id ∧ tradeB.tradeHash = t.tradeHash ∧ tradeB.listingId = t.listingId ∧
      tradeB.buyerAgentId = t.buyerAgentId ∧ tradeB.sellerAgentId = t.sellerAgentId ∧
      tradeB.buyerAddress = t.buyerAddress ∧ tradeB.sellerAddress = t.sellerAddress ∧
      tradeB.amount = t.amount ∧ tradeB.createdAt = t.createdAt ∧
      (∀ v, t.txHashes.escrowCreate = some v → tradeB.txHashes.escrowCreate = some v) ∧
      (∀ v, t.txHashes.release = some v → tradeB.txHashes.release = some v) ∧
      (∀ v, t.txHashes.refund = some v → tradeB.txHashes.refund = some v)) :=
  ⟨reachable_fileA, by decide,
   lifecycle_frame "0xC" ledgerConfirm "T1" "trade_1" fileA .lock tradeB
     [.approve "0xC" "50", .createEscrow "0xA" "50" "trade_1:0xB:0xA:T0"] fileB
     reachable_fileA (by decide)⟩

/-- True exactly on successful operation results. -/
def resultOk : Except EscrowError Trade → Bool
  | .ok _ => true
  | .error _ => false

/-- True exactly on escrow-creation ledger transactions. -/
def isCreateEscrow : LedgerCall → Bool
  | .createEscrow _ _ _ => true
  | _ => false

/-- C4 (counterexample): two concurrent `lockTokens` calls on the same
trade id, interleaved so that both tasks run their read-and-submit phase —
ending at an `await` — before either commits, BOTH submit an
escrow-creation transaction to the ledger (two submissions in total) and
BOTH return success.  This refutes the claim that one of the two calls
must fail with InvalidState or Conflict and that at most one ledger
submission per trade transition can occur: the code has no per-trade
mutual-exclusion mechanism. -/
theorem concurrent_lock_not_serialized :
    resultOk (lockTokensInterleaved "0xC" ledgerConfirm "TA" "TB" "trade_1" fileA).1.result =
      true ∧
    resultOk (lockTokensInterleaved "0xC" ledgerConfirm "TA" "TB" "trade_1" fileA).2.result =
      true ∧
    ((lockTokensInterleaved "0xC" ledgerConfirm "TA" "TB" "trade_1" fileA).1.ledgerCalls ++
      (lockTokensInterleaved "0xC" ledgerConfirm "TA" "TB" "trade_1" fileA).2.ledgerCalls).countP
        isCreateEscrow = 2 := by
  refine ⟨by decide, by decide, by decide⟩

/-- C4 (amended): the code contains no per-trade lock, so only the
serialized schedule is safe: once one `lockTokens` call has committed,
a later `lockTokens` on the same trade id reads the `locked` state and
fails with an invalid-state error without submitting anything to the
ledger.  Two calls whose read phases both precede either commit are not
serialized (see the counterexample). -/
theorem second_lock_after_commit_fails (contractAddress : String)
    (ledgerA ledgerB : LedgerCall → LedgerOutcome) (nowA nowB tradeId : String)
    (file : StoreFile) (t' : Trade) (calls : List LedgerCall) (file' : StoreFile)
    (h : lockTokens contractAddress ledgerA nowA tradeId file = ⟨.ok t', calls, file'⟩) :
    lockTokens contractAddress ledgerB nowB tradeId file' =
      ⟨.error (.invalidState .locked), [], file'⟩ := by
  obtain ⟨t, pre, post, rh, hdec, hpre, hid0, hst, hcalls, ht', hfile⟩ :=
    lockTokens_ok_inv _ _ _ _ _ _ _ _ h
  have hget' : getTrade tradeId file' = some t' := by
    refine getTrade_of_decomp tradeId file' t' pre post ?_ hpre ?_
    · rw [hfile]
      rfl
    · rw [ht']
      simp [hid0]
  have hst' : t'.state = .locked := by
    rw [ht']
    simp
  have hres := lockTokens_not_pending contractAddress ledgerB nowB tradeId file' t'
    hget' (by rw [hst']; decide)
  rw [hst'] at hres
  exact hres

/-- C4 (amended) witness: the successful lock on `fileA` commits `fileB`;
a second lock against `fileB` is rejected without ledger contact. -/
theorem second_lock_after_commit_fails_witness :
    (lockTokens "0xC" ledgerConfirm "T1" "trade_1" fileA =
      ⟨.ok tradeB,
       [.approve "0xC" "50", .createEscrow "0xA" "50" "trade_1:0xB:0xA:T0"],
       fileB⟩) ∧
    lockTokens "0xC" ledgerConfirm "T2" "trade_1" fileB =
      ⟨.error (.invalidState .locked), [], fileB⟩ :=
  ⟨by decide,
   second_lock_after_commit_fails "0xC" ledgerConfirm ledgerConfirm "T1" "T2" "trade_1"
     fileA tradeB
     [.approve "0xC" "50", .createEscrow "0xA" "50" "trade_1:0xB:0xA:T0"] fileB
     (by decide)⟩

theorem colon_append_inj (xs : List Char) (ys u v : List Char)
    (hx : ':' ∉ xs) (hy : ':' ∉ ys)
    (h : xs ++ ':' :: u = ys ++ ':' :: v) : xs = ys := by
  induction xs generalizing ys with
  | nil =>
    cases ys with
    | nil => rfl
    | cons b bs =>
      rw [List.nil_append, List.cons_append] at h
      injection h with h1 h2
      subst h1
      exact absurd (List.mem_cons_self _ _) hy
  | cons a as ih =>
    cases ys with
    | nil =>
      rw [List.nil_append, List.cons_append] at h
      injection h with h1 h2
      subst h1
      exact absurd (List.mem_cons_self _ _) hx
    | cons b bs =>
      rw [List.cons_append, List.cons_append] at h
      injection h with h1 h2
      subst h1
      rw [ih bs (fun hm => hx (List.mem_cons_of_mem a hm))
        (fun hm => hy (List.mem_cons_of_mem a hm)) h2]

theorem tradeHashInput_inj_on_ids (id1 id2 b1 s1 n1 b2 s2 n2 : String)
    (h1 : ':' ∉ id1.data) (h2 : ':' ∉ id2.data) (hne : id1 ≠ id2) :
    tradeHashInput id1 b1 s1 n1 ≠ tradeHashInput id2 b2 s2 n2 := by
  intro heq
  apply hne
  have hd : (tradeHashInput id1 b1 s1 n1).data = (tradeHashInput id2 b2 s2 n2).data := by
    rw [heq]
  simp only [tradeHashInput, String.data_append] at hd
  have hd' : id1.data ++ ':' :: (b1.data ++ ':' :: (s1.data ++ ':' :: n1.data)) =
      id2.data ++ ':' :: (b2.data ++ ':' :: (s2.data ++ ':' :: n2.data)) := by
    simpa [List.append_assoc, List.singleton_append] using hd
  exact String.ext (colon_append_inj id1.data id2.data _ _ h1 h2 hd')

/-- C8 (counterexample): two DIFFERENT tuples — same id and timestamp, the
two addresses split differently around a `:` — produce the same joined
string, hence the same externalId under every hash function, including a
perfectly collision-resistant (injective) one such as the identity
stand-in used here.  Distinct tuples therefore do not guarantee distinct
externalIds; only distinct colon-free ids do. -/
theorem tradeHash_tuple_collision :
    (("trade_1", "x:y", "z", "T0") ≠ ("trade_1", "x", "y:z", "T0")) ∧
    Function.Injective idHash ∧
    tradeHashOf idHash "trade_1" "x:y" "z" "T0" =
      tradeHashOf idHash "trade_1" "x" "y:z" "T0" :=
  ⟨by decide, fun a b hab => hab, by decide⟩

/-- C8 (amended): the on-chain trade id is a deterministic pure function
of the tuple — it equals the hash of the colon-joined encoding, so
recomputing it from the same tuple always yields the same value — and two
initiate calls whose generated ids differ always produce distinct values
when the hash is injective, because generated ids (`trade_` plus base-36
digits) never contain the `:` separator.  The colon-free-id restriction is
what the counterexample shows to be necessary. -/
theorem tradeHash_deterministic_injective (keccak256 : String → String)
    (hk : Function.Injective keccak256)
    (id1 id2 b1 s1 n1 b2 s2 n2 : String)
    (h1 : ':' ∉ id1.data) (h2 : ':' ∉ id2.data) (hne : id1 ≠ id2) :
    (tradeHashOf keccak256 id1 b1 s1 n1 =
      keccak256 (tradeHashInput id1 b1 s1 n1)) ∧
    tradeHashOf keccak256 id1 b1 s1 n1 ≠ tradeHashOf keccak256 id2 b2 s2 n2 :=
  ⟨rfl, fun hcol =>
    tradeHashInput_inj_on_ids id1 id2 b1 s1 n1 b2 s2 n2 h1 h2 hne (hk hcol)⟩

/-- C8 (amended) witness: two concrete colon-free ids with the identity
hash give distinct externalIds. -/
theorem tradeHash_deterministic_injective_witness :
    Function.Injective idHash ∧ (':' ∉ "trade_1".data) ∧ (':' ∉ "trade_2".data) ∧
    "trade_1" ≠ "trade_2" ∧
    ((tradeHashOf idHash "trade_1" "0xB" "0xA" "T0" =
       idHash (tradeHashInput "trade_1" "0xB" "0xA" "T0")) ∧
     tradeHashOf idHash "trade_1" "0xB" "0xA" "T0" ≠
       tradeHashOf idHash "trade_2" "0xB" "0xA" "T0") :=
  ⟨fun a b hab => hab, by decide, by decide, by decide,
   tradeHash_deterministic_injective idHash (fun a b hab => hab)
     "trade_1" "trade_2" "0xB" "0xA" "T0" "0xB" "0xA" "T0"
     (by decide) (by decide) (by decide)⟩

end AgentCommerce

